import Mathlib

/-!
Verification development for the splice-variant annotation engine
(`splice/map_transcripts.py`): interval matching, exon mapping,
best-transcript selection, novel-junction classification, fusion/PTD
calling and ITD detection, shallowly embedded in Lean.

Conventions of the embedding:
* Python 2-character match-code strings (over {=,<,>}) are represented as
  `Char × Char` (character 0, character 1); `ExonMapper.match_exon` itself
  returns a `String` exactly like the source.
* A block's exon matches (`None` or a list of `(exon_index, code)` pairs)
  are `Option (List ExonMatch)`.
* Machine integers are `Int`; genomic coordinates are 1-based inclusive
  as in the source.
-/

namespace Pavfinder

/-- 2-character match code, the two characters of the Python string. -/
abbrev MatchCode := Char × Char

/-- one exon match: `(exon_index, 2-char code)` as in `map_exons`. -/
abbrev ExonMatch := Nat × MatchCode

/-- matches of one alignment block: `None` or a nonempty list of exon matches. -/
abbrev BlockMatches := Option (List ExonMatch)

/-- default exon match used where Python would index into a list that its
call sites guarantee to be nonempty. -/
def dfltMatch : ExonMatch := (0, ('?', '?'))

/-- `ExonMapper.match_exon`: comparison character for a single coordinate
(the body of the `for i in range(0, 2)` loop). -/
def cmpChar (a b : Int) : Char :=
  if a = b then '='
  else if a > b then '>'
  else '<'

/-- `ExonMapper.match_exon(block, exon)`: empty string when the two intervals
do not overlap (`min(block[1], exon[1]) - max(block[0], exon[0]) <= 0`),
otherwise the 2-character code comparing starts and ends. -/
def match_exon (block exon : Int × Int) : String :=
  if min block.2 exon.2 - max block.1 exon.1 > 0 then
    String.mk [cmpChar block.1 exon.1, cmpChar block.2 exon.2]
  else
    ""

/-- `Transcript`: id, gene, strand, exons (sorted ascending by start). -/
structure Transcript where
  id : String
  gene : String
  strand : Char
  exons : List (Int × Int)
deriving DecidableEq, Repr

/-- `Transcript.num_exons`. -/
def Transcript.num_exons (t : Transcript) : Nat := t.exons.length

/-- `Transcript.length`: total of `exon[1] - exon[0] + 1` over all exons. -/
def Transcript.txtLength (t : Transcript) : Int :=
  t.exons.foldl (fun total exon => total + (exon.2 - exon.1 + 1)) 0

/-- `Transcript.exon(num)`: 1-based strand-aware exon number to exon
coordinates; `exons[num - 1]` on `+`, `exons[-num]` on `-`. -/
def Transcript.exon (t : Transcript) (num : Nat) : Int × Int :=
  if t.strand = '+' then t.exons.getD (num - 1) (0, 0)
  else t.exons.getD (t.exons.length - num) (0, 0)

/-- `Transcript.exon_num(index)`: 0-based list index to strand-aware
exon number; `index + 1` on `+`, `len(exons) - index` on `-`. -/
def Transcript.exon_num (t : Transcript) (index : Nat) : Nat :=
  if t.strand = '+' then index + 1
  else t.exons.length - index

/-- `ExonMapper.is_full_match(block_matches)`: decides whether a contig
fully covers a transcript.  Mirrors the source branch for branch; every
block is known non-`None` after the first test, so the inner lists are
read through `Option.getD` with `[]`. -/
def is_full_match (block_matches : List BlockMatches) : Bool :=
  if none ∈ block_matches then false
  else if block_matches.length = 1 then
    let m0 := (block_matches.headD none).getD []
    if m0.length = 1 then
      decide ((m0.headD dfltMatch).2 = ('=', '=') ∨
              (m0.headD dfltMatch).2 = ('>', '=') ∨
              (m0.headD dfltMatch).2 = ('=', '<'))
    else false
  else if block_matches.any (fun m => (m.getD []).length > 1) then false
  else
    let exons : List Nat := block_matches.map (fun m => ((m.getD []).headD dfltMatch).1)
    let firstCode := (((block_matches.headD none).getD []).headD dfltMatch).2
    let lastCode := (((block_matches.getLastD none).getD []).headD dfltMatch).2
    if firstCode.2 = '=' ∧ lastCode.1 = '=' ∧
       ((block_matches.drop 1).dropLast.filter
          (fun m => ((m.getD []).headD dfltMatch).2 == ('=', '='))).length
         = block_matches.length - 2 ∧
       (((exons.zip exons.tail).filter
           (fun p => p.2 == p.1 + 1)).length = block_matches.length - 1 ∨
        ((exons.zip exons.tail).filter
           (fun p => (p.2 : Int) == (p.1 : Int) - 1)).length = block_matches.length - 1) then
      true
    else false

/-- `reverse_complement` — Modelled from the spec: the function lives in
`shared/alignment.py`, which is not part of the given sources; the spec
(§4.3, §8, glossary) uses the standard notion: reverse the sequence and
complement each base (A↔T, C↔G, case preserved, others unchanged). -/
def complementBase (c : Char) : Char :=
  if c = 'A' then 'T' else if c = 'T' then 'A'
  else if c = 'C' then 'G' else if c = 'G' then 'C'
  else if c = 'a' then 't' else if c = 't' then 'a'
  else if c = 'c' then 'g' else if c = 'g' then 'c'
  else c

/-- `reverse_complement` — Modelled from the spec (see `complementBase`). -/
def reverse_complement (s : String) : String :=
  String.mk (s.toList.reverse.map complementBase)

/-- does the pattern occur in `s` at (0-based) position `i`?  Exact substring
match, the semantics `re` has on the plain DNA strings used here. -/
def isMatchAt (pat s : List Char) (i : Nat) : Bool :=
  (s.drop i).take pat.length == pat

/-- left-to-right selection of non-overlapping occurrences from the sorted
candidate list, as `re.finditer` does (each accepted match advances the
scan position past its end). -/
def selectNonOverlap (patLen : Nat) : List Nat → Nat → List Nat
  | [], _ => []
  | i :: rest, minPos =>
    if i ≥ minPos then i :: selectNonOverlap patLen rest (i + patLen)
    else selectNonOverlap patLen rest minPos

/-- 0-based start positions of the non-overlapping occurrences of
`novel_seq` in `contig_seq`, i.e. the `m.start()` values of
`re.finditer(novel_seq, contig_seq)`. -/
def reOccurrences (novel_seq contig_seq : String) : List Nat :=
  selectNonOverlap novel_seq.length
    (((List.range (contig_seq.length + 1)).filter
        (isMatchAt novel_seq.toList contig_seq.toList)))
    0

/-- `ITD_Finder.search_by_regex(novel_seq, contig_seq, max_apart)`:
requires more than one occurrence, then exactly two occurrences whose gap
`starts[1] - (starts[0] + len(novel_seq))` is at most `max_apart`; returns
the two 1-based inclusive spans, else `none` (Python `False`). -/
def search_by_regex (novel_seq contig_seq : String) (max_apart : Int) :
    Option ((Nat × Nat) × (Nat × Nat)) :=
  let occs := reOccurrences novel_seq contig_seq
  if occs.length > 1 then
    match occs with
    | [s0, s1] =>
      if (s1 : Int) - ((s0 : Int) + novel_seq.length) ≤ max_apart then
        some ((s0 + 1, s0 + novel_seq.length), (s1 + 1, s1 + novel_seq.length))
      else none
    | _ => none
  else none

/-- `Adjacency` — Modelled from the spec: the class comes from
`SV.variant`, which is not part of the given sources; the fields are the
ones `ITD_Finder` reads and writes (spec §3: event kind `rna_event`,
genomic breakpoints `breaks`, contig breakpoints `contig_breaks`, novel
sequence `novel_seq`). -/
structure Adjacency where
  rna_event : String
  breaks : Int × Int
  contig_breaks : Int × Int
  novel_seq : String
deriving DecidableEq, Repr

/-- Python slice `s[a : b]` for the non-negative indices used here. -/
def pySlice (s : String) (a b : Int) : String :=
  String.mk ((s.toList.drop a.toNat).take (b - a).toNat)

/-- `ITD_Finder.update_attrs(adj, align, dup, contig_seq=None)`: sets
`rna_event` to `ITD` and `contig_breaks` to `(dup[0][1], dup[1][0])`;
only when `contig_seq` is given does it also recompute `breaks` (note the
source computes `shift` from the *already updated* `contig_breaks`, so
`shift = dup[1][0] - dup[0][1]`) and reset `novel_seq` to the second copy
(reverse-complemented on `-` strand). -/
def update_attrs (adj : Adjacency) (strand : Char)
    (dup : (Int × Int) × (Int × Int)) (contig_seq : Option String) : Adjacency :=
  let new_contig_breaks := (dup.1.2, dup.2.1)
  let adj1 := { adj with rna_event := "ITD", contig_breaks := new_contig_breaks }
  match contig_seq with
  | none => adj1
  | some cseq =>
    let shift := dup.2.1 - adj1.contig_breaks.1
    let new_genome_breaks :=
      if strand = '+' then
        let new_genome_pos := adj1.breaks.1 + shift
        (new_genome_pos - 1, new_genome_pos)
      else
        let new_genome_pos := adj1.breaks.1 + shift * (-1)
        (new_genome_pos, new_genome_pos + 1)
    let dup_size := max (dup.1.2 - dup.1.1 + 1) (dup.2.2 - dup.2.1 + 1)
    let ns := pySlice cseq (dup.2.1 - 1) (dup.2.1 - 1 + dup_size)
    let ns := if strand = '-' then reverse_complement ns else ns
    { adj1 with breaks := new_genome_breaks, novel_seq := ns }

/-- one parsed row of the tabular blastn self-alignment output
(`ITD_Finder.parse_blast_tab`); blastn itself is the external
`localSelfAlign` collaborator, so its result rows are an input here.
`pid` is the percent identity (a decimal number, modelled as `ℚ`). -/
structure BlastRow where
  pid : ℚ
  alen : Int
  qstart : Int
  qend : Int
  tstart : Int
  tend : Int
deriving DecidableEq, Repr

/-- filter of `ITD_Finder.search_by_align` on one blast row: skip the
self-match, short matches and one of each reciprocal pair; then require
percent identity, inter-copy distance and overlap with the contig break
range. -/
def blastRowAccepted (contig_seq_len : Nat) (contig_breaks : Int × Int)
    (min_len : Int) (max_apart : Int) (min_pid : ℚ) (aln : BlastRow) : Bool :=
  if aln.alen = (contig_seq_len : Int) ∨ aln.alen < min_len ∨ aln.qstart ≥ aln.tstart then
    false
  else
    let span1 := (aln.qstart, aln.qend)
    let span2 := (aln.tstart, aln.tend)
    decide (aln.pid ≥ min_pid ∧
      |min span2.2 span1.2 - max span2.1 span1.1| ≤ max_apart ∧
      (min contig_breaks.2 span1.2 - max contig_breaks.1 span1.1 > 0 ∨
       min contig_breaks.2 span2.2 - max contig_breaks.1 span2.1 > 0))

/-- `ITD_Finder.search_by_align` after the external blastn run: scan the
parsed rows, keep accepted ones as duplication candidates, and return the
candidate with the largest `alen` (the first such, as the stable
descending sort does), else `none` (Python `False`). -/
def search_by_align (contig_seq_len : Nat) (contig_breaks : Int × Int)
    (min_len : Int) (max_apart : Int) (min_pid : ℚ) (rows : List BlastRow) :
    Option ((Int × Int) × (Int × Int)) :=
  let dups := (rows.filter
      (blastRowAccepted contig_seq_len contig_breaks min_len max_apart min_pid)).map
      (fun aln => (((aln.qstart, aln.qend), (aln.tstart, aln.tend)), aln.alen))
  match dups with
  | [] => none
  | d :: rest =>
    some (rest.foldl (fun acc q => if q.2 > acc.2 then q else acc) d).1

/-- lift the 1-based `Nat` spans of `search_by_regex` into the `Int` span
pairs `update_attrs` consumes. -/
def natSpans (d : (Nat × Nat) × (Nat × Nat)) : (Int × Int) × (Int × Int) :=
  (((d.1.1 : Int), (d.1.2 : Int)), ((d.2.1 : Int), (d.2.2 : Int)))

/-- Python `sorted` on the 2-tuple `adj.contig_breaks`. -/
def sortPair (p : Int × Int) : Int × Int :=
  if p.1 ≤ p.2 then p else (p.2, p.1)

/-- the `dup` found by the regex path of `detect_itd`: the novel sequence
is reverse-complemented on `-` strand, and the exact search runs only
when it is at least `min_len` long. -/
def regexDup (adj : Adjacency) (strand : Char) (contig_seq : String)
    (min_len : Nat) (max_apart : Int) : Option ((Nat × Nat) × (Nat × Nat)) :=
  let novel_seq := if strand = '+' then adj.novel_seq else reverse_complement adj.novel_seq
  if novel_seq.length ≥ min_len then
    search_by_regex novel_seq contig_seq max_apart
  else none

/-- `ITD_Finder.detect_itd(adj, align, contig_seq, ...)`: try the regex
(exact-copy) path first when the novel sequence is long enough; on success
update the adjacency *without* passing the contig sequence.  Otherwise run
the blastn fallback (`blast_rows` being the external aligner's parsed
output) and on success update *with* the contig sequence.  Returns the
resulting adjacency (the source mutates `adj` in place). -/
def detect_itd (adj : Adjacency) (strand : Char) (contig_seq : String)
    (min_len : Nat) (max_apart : Int) (min_pid : ℚ)
    (blast_rows : List BlastRow) : Adjacency :=
  match regexDup adj strand contig_seq min_len max_apart with
  | some d => update_attrs adj strand (natSpans d) none
  | none =>
    match search_by_align contig_seq.length (sortPair adj.contig_breaks)
        (min_len : Int) max_apart min_pid blast_rows with
    | some d => update_attrs adj strand d (some contig_seq)
    | none => adj

/-- per-block bonus of the scoring loop of `Mapping.pick_best`: the
`if i == 0 / elif i == len - 1` edge bonuses, then the two unconditional
`+4` checks on the block's first and last exon-match end-codes. -/
def pb_score_go (n : Nat) : Nat → List BlockMatches → Int
  | _, [] => 0
  | i, m :: rest =>
    (match m with
     | none => 0
     | some ms =>
       let first := ms.headD dfltMatch
       let last := ms.getLastD dfltMatch
       (if i = 0 then
          (if first.2.1 = '=' then 5 else if first.2.1 = '>' then 2 else 0)
        else if i = n - 1 then
          (if last.2.2 = '=' then 5 else if last.2.2 = '<' then 2 else 0)
        else 0)
       + (if first.2.2 = '=' then 4 else 0)
       + (if last.2.2 = '=' then 4 else 0)) +
    pb_score_go n (i + 1) rest

/-- the `score` accumulated by `Mapping.pick_best` over all blocks. -/
def pb_score (ms : List BlockMatches) : Int := pb_score_go ms.length 0 ms

/-- the `penalty` loop of `Mapping.pick_best`: +2 per unmatched block,
+1 per block mapped to more than one exon, +1 when the next block is
matched but its first exon index is not the successor of this block's
last exon index (skipped when this block is unmatched, as the source
`continue`s). -/
def pb_penalty : List BlockMatches → Int
  | [] => 0
  | none :: rest => 2 + pb_penalty rest
  | some ms :: rest =>
    (if ms.length > 1 then 1 else 0) +
    (match rest with
     | [] => 0
     | next :: _ =>
       match next with
       | none => 0
       | some ns =>
         if (ns.headD dfltMatch).1 ≠ (ms.getLastD dfltMatch).1 + 1 then 1 else 0) +
    pb_penalty rest

/-- the `from_edge` metric of `Mapping.pick_best`: the sentinel 10000 when
the first or last block is unmatched, otherwise
`align.tstart - exon(start_exon_num)[0] + align.tend - exon(end_exon_num)[1]`
with the strand-aware exon numbers of the terminal matched exons. -/
def pb_from_edge (ms : List BlockMatches) (t : Transcript) (tstart tend : Int) : Int :=
  match ms.headD none, ms.getLastD none with
  | some m0, some mlast =>
    let nums :=
      if t.strand = '+' then ((m0.headD dfltMatch).1 + 1, (mlast.getLastD dfltMatch).1 + 1)
      else (t.num_exons - (m0.headD dfltMatch).1, t.num_exons - (mlast.getLastD dfltMatch).1)
    tstart - (t.exon nums.1).1 + (tend - (t.exon nums.2).2)
  | _, _ => 10000

/-- the metric dictionary of `Mapping.pick_best` as a triple
`(score - penalty, from_edge, txt_size)`. -/
def pb_metric (t : Transcript) (ms : List BlockMatches) (tstart tend : Int) :
    Int × Int × Int :=
  (pb_score ms - pb_penalty ms, pb_from_edge ms t tstart tend, t.txtLength)

/-- the sort key of `Mapping.pick_best`:
`(-1 * score, from_edge, txt_size)`. -/
def sortKey (metric : Int × Int × Int) : Int × Int × Int :=
  (-1 * metric.1, metric.2.1, metric.2.2)

/-- strict lexicographic comparison on the sort key, as Python compares
3-tuples. -/
def keyLt (a b : Int × Int × Int) : Bool :=
  decide (a.1 < b.1 ∨ (a.1 = b.1 ∧ (a.2.1 < b.2.1 ∨ (a.2.1 = b.2.1 ∧ a.2.2 < b.2.2))))

/-- `Mapping.pick_best(mappings, align)`: computes each candidate's metric
and returns `sorted(metrics.keys(), key)[0]`, i.e. the first candidate
(in enumeration order) whose key is lexicographically minimal — realised
as a left fold that replaces the current best only on strictly smaller
key, which is what the head of Python's stable sort is.  The source wraps
this transcript in a fresh `Mapping`; the selection itself is what is
embedded. -/
def pick_best_transcript (mappings : List (Transcript × List BlockMatches))
    (tstart tend : Int) : Transcript :=
  let ks := mappings.map (fun p => (p.1, sortKey (pb_metric p.1 p.2 tstart tend)))
  match ks with
  | [] => ⟨"", "", '?', []⟩
  | k :: rest => (rest.foldl (fun acc q => if keyLt q.2 acc.2 then q else acc) k).1

/-- `match1` argument of `NovelSpliceFinder.classify_novel_junction`:
`None`, a single `(exon_index, code)` tuple, or (for the retained-intron
call) the whole list of a block's exon matches. -/
inductive Match1Arg
  | mnone
  | single (m : ExonMatch)
  | multi (ms : List ExonMatch)
deriving DecidableEq, Repr

/-- `blocks` argument of `classify_novel_junction`: either one flat
`[start, end]` block (the retained-intron call) or a list of blocks. -/
inductive BlocksArg
  | one (b : Int × Int)
  | many (bs : List (Int × Int))
deriving DecidableEq, Repr

/-- event dictionary returned by `classify_novel_junction`
(`size` is `none` for the sizeless `ins` event). -/
structure SpliceEvent where
  event : String
  exons : List Nat
  pos : Int × Int
  size : Option Int
deriving DecidableEq, Repr

/-- `NovelSpliceFinder.check_splice_motif`: fetches 2 bases at the donor
start and 2 at the acceptor start (1-based coordinates, `ref_fasta.fetch`
is 0-based half-open, here the opaque `fetch`), concatenates them
strand-dependently and compares the lower-cased 4-mer with the single
canonical motif `gtag`. -/
def check_splice_motif (fetch : String → Int → Int → String) (chrom : String)
    (donor_start acceptor_start : Int) (strand : Char) : Bool :=
  let donor_seq := fetch chrom (donor_start - 1) (donor_start - 1 + 2)
  let acceptor_seq := fetch chrom (acceptor_start - 1) (acceptor_start - 1 + 2)
  let motif := if strand = '+' then donor_seq ++ acceptor_seq
               else reverse_complement (acceptor_seq ++ donor_seq)
  motif.toLower ∈ ["gtag"]

/-- `NovelSpliceFinder.is_junction_annotated(match1, match2)`. -/
def is_junction_annotated (m1 m2 : ExonMatch) : Bool :=
  m2.1 == m1.1 + 1 && m1.2.2 == '=' && m2.2.1 == '='

/-- block access `blocks[i]` with the out-of-range default the call sites
never hit. -/
def getBlk (bs : List (Int × Int)) (i : Nat) : Int × Int := bs.getD i (0, 0)

/-- the default `pos` of `classify_novel_junction`: `(blocks[0], blocks[1])`
on a flat block, `(blocks[0][1], blocks[1][0])` on a block list. -/
def defaultPos : BlocksArg → Int × Int
  | .one b => (b.1, b.2)
  | .many bs => ((getBlk bs 0).2, (getBlk bs 1).1)

/-- `blocks[0][1]` of the multi-block calls (junk on the flat call,
where the source would fail). -/
def blkEnd0 : BlocksArg → Int
  | .one b => b.2
  | .many bs => (getBlk bs 0).2

/-- `blocks[1][0]` of the multi-block calls (junk on the flat call,
where the source would fail). -/
def blkStart1 : BlocksArg → Int
  | .one b => b.1
  | .many bs => (getBlk bs 1).1

/-- `blocks[-2][1]` of the multi-block calls (junk on the flat call,
where the source would fail). -/
def blkEndPenult : BlocksArg → Int
  | .one b => b.1
  | .many bs => (getBlk bs (bs.length - 2)).2

/-- retained-intron branch of `classify_novel_junction` (when `match2`
is `None` and `match1` is the 2-element match list). -/
def retainedIntronEvents (ms : List ExonMatch) (pos : Int × Int) (t : Transcript) :
    List SpliceEvent :=
  if ms.length = 2 then
    let exons := ms.map Prod.fst
    if (ms.headD dfltMatch).2 = ('=', '>') ∧ (ms.getLastD dfltMatch).2 = ('<', '=') ∧
       ((exons.zip exons.tail).filter (fun p => p.2 == p.1 + 1)).length = ms.length - 1 then
      let size := (t.exons.getD (exons.getD 1 0) (0, 0)).1 -
                  (t.exons.getD (exons.getD 0 0) (0, 0)).2 - 1
      [⟨"retained_intron", exons, pos, some size⟩]
    else []
  else []

/-- 5′-UTR special-case branch of `classify_novel_junction` (when
`match1` is `None`): gap before the first matched exon. -/
def utrGapEvents (m2 : ExonMatch) (chrom : String) (b0e b1s : Int) (t : Transcript)
    (fetch : String → Int → Int → String) (min_intron_size : Int) : List SpliceEvent :=
  if m2.1 = 0 ∧ m2.2 = ('<', '=') then
    let donor_start := if t.strand = '+' then b0e + 1 else b1s - 2
    let acceptor_start := if t.strand = '+' then b1s - 2 else b0e + 1
    let gap_size := b1s - b0e - 1
    let posg := (b0e, b1s)
    if gap_size > 0 then
      if gap_size > min_intron_size ∧
         check_splice_motif fetch chrom donor_start acceptor_start t.strand then
        [⟨"novel_intron", [m2.1], posg, some gap_size⟩]
      else
        [⟨"del", [m2.1], posg, some gap_size⟩]
    else []
  else []

/-- skipped-exon branch of `classify_novel_junction`. -/
def skippedExonEvents (m1 m2 : ExonMatch) (pos : Int × Int) (t : Transcript) :
    List SpliceEvent :=
  if m2.1 > m1.1 + 1 ∧ (m1.2.1 = '=' ∨ m1.2.2 = '=') ∧ (m2.2.1 = '=' ∨ m2.2.2 = '=') then
    let idxs := List.range' (m1.1 + 1) (m2.1 - (m1.1 + 1))
    let size := idxs.foldl
      (fun acc e => acc + ((t.exons.getD e (0, 0)).2 - (t.exons.getD e (0, 0)).1 + 1)) 0
    [⟨"skipped_exon", idxs, pos, some size⟩]
  else []

/-- same-exon gap branch of `classify_novel_junction`: both flanking
blocks match the same exon, upstream end-code `<`, downstream start-code
`>`; gap 0 → `ins` (sizeless), gap > min_intron_size with canonical
motif → `novel_intron`, other positive gaps → `del`. -/
def sameExonGapEvents (m1 m2 : ExonMatch) (chrom : String) (b0e b1s : Int)
    (t : Transcript) (fetch : String → Int → Int → String) (min_intron_size : Int) :
    List SpliceEvent :=
  if m1.1 = m2.1 ∧ m1.2.2 = '<' ∧ m2.2.1 = '>' then
    let donor_start := if t.strand = '+' then b0e + 1 else b1s - 2
    let acceptor_start := if t.strand = '+' then b1s - 2 else b0e + 1
    let gap_size := b1s - b0e - 1
    let posg := (b0e, b1s)
    if gap_size > 0 then
      if gap_size > min_intron_size ∧
         check_splice_motif fetch chrom donor_start acceptor_start t.strand then
        [⟨"novel_intron", [m1.1], posg, some gap_size⟩]
      else
        [⟨"del", [m1.1], posg, some gap_size⟩]
    else if gap_size = 0 then
      [⟨"ins", [m1.1], posg, none⟩]
    else []
  else []

/-- novel-acceptor/donor branch of `classify_novel_junction` for an exact
upstream end-code and inexact downstream start-code. -/
def novelAccEvents (m1 m2 : ExonMatch) (chrom : String) (b0e b1s : Int)
    (pos : Int × Int) (t : Transcript) (fetch : String → Int → Int → String) :
    List SpliceEvent :=
  if m1.2.2 = '=' ∧ m2.2.1 ≠ '=' then
    let size := |b1s - (t.exons.getD m2.1 (0, 0)).1|
    let ev := if t.strand = '+' then "novel_acceptor" else "novel_donor"
    let donor_start := if t.strand = '+' then b0e + 1 else b1s - 2
    let acceptor_start := if t.strand = '+' then b1s - 2 else b0e + 1
    if check_splice_motif fetch chrom donor_start acceptor_start t.strand then
      [⟨ev, [m1.1, m2.1], pos, some size⟩]
    else []
  else []

/-- novel-donor/acceptor branch of `classify_novel_junction` for an
inexact upstream end-code and exact downstream start-code. -/
def novelDonEvents (m1 m2 : ExonMatch) (chrom : String) (b0e b1s : Int)
    (pos : Int × Int) (t : Transcript) (fetch : String → Int → Int → String) :
    List SpliceEvent :=
  if m1.2.2 ≠ '=' ∧ m2.2.1 = '=' then
    let size := |b0e - (t.exons.getD m1.1 (0, 0)).2|
    let ev := if t.strand = '+' then "novel_donor" else "novel_acceptor"
    let donor_start := if t.strand = '+' then b0e + 1 else b1s - 2
    let acceptor_start := if t.strand = '+' then b1s - 2 else b0e + 1
    if check_splice_motif fetch chrom donor_start acceptor_start t.strand then
      [⟨ev, [m1.1, m2.1], pos, some size⟩]
    else []
  else []

/-- novel-exon branch of `classify_novel_junction`. -/
def novelExonEvents (m1 m2 : ExonMatch) (chrom : String) (b1s bl : Int)
    (t : Transcript) (fetch : String → Int → Int → String) : List SpliceEvent :=
  if m2.1 = m1.1 + 1 ∧ m1.2.2 = '=' ∧ m2.2.1 = '=' then
    let pose := (b1s, bl)
    let size := bl - b1s + 1
    let donor_start := if t.strand = '+' then pose.2 + 1 else pose.1 - 2
    let acceptor_start := if t.strand = '+' then pose.1 - 2 else pose.2 + 1
    if check_splice_motif fetch chrom donor_start acceptor_start t.strand then
      [⟨"novel_exon", [], pose, some size⟩]
    else []
  else []

/-- `NovelSpliceFinder.classify_novel_junction(match1, match2, chrom,
blocks, transcript, ref_fasta, min_intron_size=20)`, branch for branch:
retained intron (when `match2` is `None`), the 5′-UTR special case (when
`match1` is `None`), and otherwise, in source order, skipped exon, the
same-exon `ins`/`del`/`novel_intron` gap case, novel acceptor/donor, and
novel exon; the sizeless `ins` event carries `size = none` as the final
loop of the source sets it.  The branch bodies live in the helper
definitions above. -/
def classify_novel_junction (match1 : Match1Arg) (match2 : Option ExonMatch)
    (chrom : String) (blocks : BlocksArg) (t : Transcript)
    (fetch : String → Int → Int → String) (min_intron_size : Int := 20) :
    List SpliceEvent :=
  match match2, match1 with
  | none, .multi ms => retainedIntronEvents ms (defaultPos blocks) t
  | none, _ => []
  | some m2, .mnone =>
    utrGapEvents m2 chrom (blkEnd0 blocks) (blkStart1 blocks) t fetch min_intron_size
  | some m2, .single m1 =>
    skippedExonEvents m1 m2 (defaultPos blocks) t ++
    sameExonGapEvents m1 m2 chrom (blkEnd0 blocks) (blkStart1 blocks) t fetch min_intron_size ++
    novelAccEvents m1 m2 chrom (blkEnd0 blocks) (blkStart1 blocks) (defaultPos blocks) t fetch ++
    novelDonEvents m1 m2 chrom (blkEnd0 blocks) (blkStart1 blocks) (defaultPos blocks) t fetch ++
    novelExonEvents m1 m2 chrom (blkStart1 blocks) (blkEndPenult blocks) t fetch
  | some _, .multi _ => []

/-- per-transcript score of the inner `pick_best` of
`FusionFinder.identify_fusion`: +1000 (`exon_bound_score`) when the
junction-side code character of the junction-side exon match is `=`, plus
15/10/5 when the distal character is `=`/`>`/`<`. -/
def fusionScore (orient : Char) (m : Option (List ExonMatch)) : Int :=
  match m with
  | none => 0
  | some ms =>
    let jb := if orient = 'L' then ms.getLastD dfltMatch else ms.headD dfltMatch
    let junctionChar := if orient = 'L' then jb.2.2 else jb.2.1
    let distantChar := if orient = 'L' then jb.2.1 else jb.2.2
    (if junctionChar = '=' then 1000 else 0) +
    (if distantChar = '=' then 15
     else if distantChar = '>' then 10
     else if distantChar = '<' then 5 else 0)

/-- the inner `pick_best(matches, orient)` of
`FusionFinder.identify_fusion`: maximal score over the candidate
transcripts, then among best scorers the first with maximal transcript
length (the head of Python's stable descending sort); returns
`(best_txt, best_score > exon_bound_score)`. -/
def fusion_pick_best (ms : List (String × Option (List ExonMatch)))
    (txtLen : String → Int) (orient : Char) : String × Bool :=
  let scores := ms.map (fun p => (p.1, fusionScore orient p.2))
  let best_score : Int := match scores with
    | [] => 0
    | s :: rest => rest.foldl (fun a q => max a q.2) s.2
  let cands := scores.filter (fun p => p.2 == best_score)
  let best_txt := match cands with
    | [] => ""
    | c :: rest => (rest.foldl (fun acc q => if txtLen q.1 > txtLen acc.1 then q else acc) c).1
  (best_txt, decide (best_score > 1000))

/-- the slice of the `Adjacency` record the fusion callers write
(`find_chimera` / `find_read_through.create_fusion`). -/
structure FusionRec where
  rna_event : String
  genes : String × String
  transcripts : String × String
  exon_bound : Bool × Bool
  in_frame : Bool
deriving DecidableEq, Repr

/-- `FusionFinder.is_ptd(fusion)`: sets `rna_event` to `PTD` exactly when
both genes are equal and both sides are exon-bound. -/
def is_ptd (f : FusionRec) : FusionRec :=
  if f.genes.1 == f.genes.2 && f.exon_bound.1 && f.exon_bound.2 then
    { f with rna_event := "PTD" }
  else f

/-- the common tail of `FusionFinder.find_chimera` and
`find_read_through.create_fusion`: annotate the adjacency with the two
picked junction transcripts (`rna_event = fusion`, genes, transcripts,
`exon_bound`, `in_frame`) and then apply `is_ptd`. -/
def annotate_fusion (txtGene : String → String) (pick1 pick2 : String × Bool) :
    FusionRec :=
  is_ptd
    { rna_event := "fusion"
      genes := (txtGene pick1.1, txtGene pick2.1)
      transcripts := (pick1.1, pick2.1)
      exon_bound := (pick1.2, pick2.2)
      in_frame := pick1.2 && pick2.2 }

/-- first-block edge bonus of the `pick_best` score: +5 when the block's
first exon-match start-code is `=`, +2 when `>`. -/
def startEdgeBonus : BlockMatches → Int
  | none => 0
  | some ms =>
    if (ms.headD dfltMatch).2.1 = '=' then 5
    else if (ms.headD dfltMatch).2.1 = '>' then 2 else 0

/-- last-block edge bonus of the `pick_best` score: +5 when the block's
last exon-match end-code is `=`, +2 when `<`. -/
def endEdgeBonus : BlockMatches → Int
  | none => 0
  | some ms =>
    if (ms.getLastD dfltMatch).2.2 = '=' then 5
    else if (ms.getLastD dfltMatch).2.2 = '<' then 2 else 0

/-- the two unconditional `+4` checks of the `pick_best` score loop, on a
block's first and last exon-match end-codes. -/
def inwardBonus : BlockMatches → Int
  | none => 0
  | some ms =>
    (if (ms.headD dfltMatch).2.2 = '=' then 4 else 0) +
    (if (ms.getLastD dfltMatch).2.2 = '=' then 4 else 0)

/-- the score formula exactly as the C2 claim words it: +5/+2 for the
first block's start-code, +5/+2 for the last block's end-code, +4 for
each of the first and last block's inward-facing code (the first block's
end-code, the last block's start-code) being `=` — these +4 bonuses
accruing *only* for the first and last blocks — minus the penalty. -/
def claimScoreC2 (ms : List BlockMatches) : Int :=
  (startEdgeBonus (ms.headD none) +
    (match ms.headD none with
     | none => 0
     | some l => if (l.getLastD dfltMatch).2.2 = '=' then 4 else 0)) +
  (endEdgeBonus (ms.getLastD none) +
    (match ms.getLastD none with
     | none => 0
     | some l => if (l.headD dfltMatch).2.1 = '=' then 4 else 0)) -
  pb_penalty ms

/-- the amended score formula: the first block gets the start-edge bonus;
the last block gets the end-edge bonus only when it is not also the first
block (the source `elif`); and *every* matched block gets the two `+4`
inward bonuses. -/
def amendedScoreC2 (ms : List BlockMatches) : Int :=
  startEdgeBonus (ms.headD none) +
  (if ms.length > 1 then endEdgeBonus (ms.getLastD none) else 0) +
  (ms.map inwardBonus).sum

/-! ## Theorems -/

/-- `List.getD` at an in-range index is `List.get`. -/
theorem getD_eq_get_pair (l : List (Int × Int)) (i : Nat) (hi : i < l.length) :
    l.getD i (0, 0) = l.get ⟨i, hi⟩ := by
  rw [List.getD_eq_getElem l (0, 0) hi]
  simp

/-- the comparison character of the source loop agrees with an
independent spelled-out comparison. -/
theorem cmpChar_cases (a b : Int) :
    cmpChar a b = if a = b then '=' else if a < b then '<' else '>' := by
  unfold cmpChar
  split_ifs <;> first | rfl | omega

/-- C5: `ExonMapper.match_exon` returns no-match (the empty string)
exactly when `min(block end, exon end) - max(block start, exon start) ≤ 0`
(so in particular for boundary-touching intervals), and otherwise a
2-character code whose character 0 compares the starts and character 1
compares the ends, each independently `=` for equal, `<` for less and `>`
for greater. -/
theorem match_exon_no_overlap_and_code (block exon : Int × Int)
    (hb : block.1 ≤ block.2) (he : exon.1 ≤ exon.2) :
    (match_exon block exon = "" ↔ min block.2 exon.2 - max block.1 exon.1 ≤ 0) ∧
    (min block.2 exon.2 - max block.1 exon.1 > 0 →
      (match_exon block exon).toList =
        [if block.1 = exon.1 then '=' else if block.1 < exon.1 then '<' else '>',
         if block.2 = exon.2 then '=' else if block.2 < exon.2 then '<' else '>']) := by
  unfold match_exon
  by_cases h : min block.2 exon.2 - max block.1 exon.1 > 0
  · simp only [if_pos h]
    have hne : String.mk [cmpChar block.1 exon.1, cmpChar block.2 exon.2] ≠ "" := by
      intro hcontra
      exact List.cons_ne_nil _ _ (congrArg String.data hcontra)
    refine ⟨⟨fun hc => absurd hc hne, fun hle => by omega⟩, fun _ => ?_⟩
    simp [String.toList, cmpChar_cases]
  · simp only [if_neg h]
    exact ⟨⟨fun _ => by omega, fun _ => by trivial⟩, fun hgt => absurd hgt h⟩

/-- witness for `match_exon_no_overlap_and_code` at a concrete
overlapping pair. -/
theorem match_exon_no_overlap_and_code_witness :
    (match_exon (1, 10) (5, 20) = "" ↔ min (10 : Int) 20 - max (1 : Int) 5 ≤ 0) ∧
    (min (10 : Int) 20 - max (1 : Int) 5 > 0 →
      (match_exon (1, 10) (5, 20)).toList =
        [if (1 : Int) = 5 then '=' else if (1 : Int) < 5 then '<' else '>',
         if (10 : Int) = 20 then '=' else if (10 : Int) < 20 then '<' else '>']) :=
  match_exon_no_overlap_and_code (1, 10) (5, 20) (by decide) (by decide)

/-- C8: exon numbering is a strand-aware round-trip: `exon_num` sends
index 0 to number 1 and index N-1 to number N on `+`, index 0 to N and
index N-1 to 1 on `-`, and `Transcript.exon` inverts it: for every valid
index `i`, `exon (exon_num i)` is the exon stored at index `i`. -/
theorem exon_num_round_trip (t : Transcript) (i : Nat)
    (hs : t.strand = '+' ∨ t.strand = '-') (hi : i < t.exons.length) :
    t.exon (t.exon_num i) = t.exons.get ⟨i, hi⟩ ∧
    (t.strand = '+' →
      t.exon_num 0 = 1 ∧ t.exon_num (t.exons.length - 1) = t.exons.length) ∧
    (t.strand = '-' →
      t.exon_num 0 = t.exons.length ∧ t.exon_num (t.exons.length - 1) = 1) := by
  have hlen : 0 < t.exons.length := Nat.lt_of_le_of_lt (Nat.zero_le i) hi
  by_cases hp : t.strand = '+'
  · have hminus : ¬ t.strand = '-' := by rw [hp]; decide
    unfold Transcript.exon Transcript.exon_num
    simp only [if_pos hp]
    refine ⟨?_, fun _ => ⟨by trivial, by omega⟩, fun hm => absurd hm hminus⟩
    rw [Nat.add_sub_cancel]
    exact getD_eq_get_pair t.exons i hi
  · unfold Transcript.exon Transcript.exon_num
    simp only [if_neg hp]
    refine ⟨?_, fun hple => absurd hple hp, fun _ => ⟨by trivial, by omega⟩⟩
    have harith : t.exons.length - (t.exons.length - i) = i := by omega
    rw [harith]
    exact getD_eq_get_pair t.exons i hi

/-- witness for `exon_num_round_trip`: on a 3-exon `-`-strand transcript,
index 0 round-trips through exon number 3 back to the first stored exon. -/
theorem exon_num_round_trip_witness :
    (Transcript.mk "t" "g" '-' [(1, 10), (21, 30), (41, 55)]).exon
        ((Transcript.mk "t" "g" '-' [(1, 10), (21, 30), (41, 55)]).exon_num 0) = (1, 10) := by
  have h := exon_num_round_trip (Transcript.mk "t" "g" '-' [(1, 10), (21, 30), (41, 55)]) 0
    (Or.inr rfl) (by decide)
  rw [h.1]
  rfl

/-- C7: when the non-overlapping occurrence scan of the novel sequence in
the contig yields exactly two starts `s0 < s1`, `search_by_regex` returns
the two 1-based inclusive spans provided the second occurrence starts at
most `max_apart` bases after the first one ends, and reports no
duplication (`none`) when the separation is larger; it also reports no
duplication whenever the number of occurrences differs from two. -/
theorem search_by_regex_two_occurrences :
    (∀ (novel contig : String) (max_apart : Int) (s0 s1 : Nat),
       reOccurrences novel contig = [s0, s1] →
       (((s1 : Int) - ((s0 : Int) + novel.length) ≤ max_apart →
          search_by_regex novel contig max_apart =
            some ((s0 + 1, s0 + novel.length), (s1 + 1, s1 + novel.length))) ∧
        ((s1 : Int) - ((s0 : Int) + novel.length) > max_apart →
          search_by_regex novel contig max_apart = none))) ∧
    (∀ (novel contig : String) (max_apart : Int),
       (reOccurrences novel contig).length ≠ 2 →
       search_by_regex novel contig max_apart = none) := by
  constructor
  · intro novel contig max_apart s0 s1 h
    unfold search_by_regex
    rw [h]
    simp only [List.length_cons, List.length_nil]
    constructor
    · intro hle
      simp [if_pos hle]
      omega
    · intro hgt
      have hz : ¬ ((s1 : Int) - ((s0 : Int) + novel.length) ≤ max_apart) := by omega
      simp [if_neg hz]
      omega
  · intro novel contig max_apart h
    unfold search_by_regex
    rcases hocc : reOccurrences novel contig with _ | ⟨a, _ | ⟨b, _ | ⟨c, t⟩⟩⟩
    · simp
    · simp
    · rw [hocc] at h
      simp at h
    · simp

/-- witness for `search_by_regex_two_occurrences`: the spec's own test
vector `AAAXXXXXAAA` / `AAA` yields the spans (1,3) and (9,11). -/
theorem search_by_regex_two_occurrences_witness :
    search_by_regex "AAA" "AAAXXXXXAAA" 10 = some ((1, 3), (9, 11)) := by
  have h := (search_by_regex_two_occurrences.1 "AAA" "AAAXXXXXAAA" 10 0 8 (by decide)).1
    (by decide)
  exact h

/-- the counting trick of the source (`len([...for a, b in zip(xs, xs[1:])
if P]) == len(xs) - 1`): the filtered consecutive-pair list has full
length exactly when every consecutive pair satisfies the predicate. -/
theorem pair_filter_count_iff {α : Type} (p : α → α → Bool) :
    ∀ l : List α,
      (((l.zip l.tail).filter (fun q => p q.1 q.2)).length = l.length - 1) ↔
        l.Chain' (fun a b => p a b = true)
  | [] => by simp
  | [a] => by simp
  | a :: b :: t => by
    have ih := pair_filter_count_iff p (b :: t)
    simp only [List.tail_cons, List.length_cons] at ih ⊢
    rw [show (a :: b :: t).zip (b :: t) = (a, b) :: ((b :: t).zip t) from rfl]
    rw [List.filter_cons, List.chain'_cons]
    have hle : (((b :: t).zip t).filter (fun q => p q.1 q.2)).length ≤ t.length := by
      have h1 := List.length_filter_le (fun q : α × α => p q.1 q.2) ((b :: t).zip t)
      have h2 : ((b :: t).zip t).length = t.length := by
        rw [List.length_zip]
        simp
      omega
    by_cases hp : p a b
    · rw [if_pos (by simpa using hp)]
      simp only [List.length_cons]
      constructor
      · intro h
        exact ⟨hp, ih.mp (by omega)⟩
      · intro h
        have h2 := ih.mpr h.2
        omega
    · rw [if_neg (by simpa using hp)]
      constructor
      · intro h
        exfalso
        omega
      · intro h
        exact absurd h.1 hp

/-- `Chain'` respects pointwise equivalent relations. -/
theorem chain'_iff_of_iff {α : Type} {R S : α → α → Prop}
    (h : ∀ a b, R a b ↔ S a b) {l : List α} : l.Chain' R ↔ l.Chain' S :=
  ⟨fun hc => hc.imp (fun a b => (h a b).mp), fun hc => hc.imp (fun a b => (h a b).mpr)⟩

/-- evaluation of `is_full_match` on a multi-block list in which every
block matches exactly one exon: the remaining conditions are the first
block's end-code, the last block's start-code, interior `==` codes, and
the consecutive (ascending or descending) run of exon indices. -/
theorem is_full_match_map (ems : List ExonMatch) (h2 : 1 < ems.length) :
    (is_full_match (ems.map (fun em => some [em])) = true ↔
      ((ems.headD dfltMatch).2.2 = '=' ∧
       (ems.getLastD dfltMatch).2.1 = '=' ∧
       (∀ em ∈ (ems.drop 1).dropLast, em.2 = ('=', '=')) ∧
       ((ems.map Prod.fst).Chain' (fun a b => b = a + 1) ∨
        (ems.map Prod.fst).Chain' (fun a b : Nat => (b : Int) = (a : Int) - 1)))) := by
  obtain ⟨e1, tl, rfl⟩ : ∃ e1 tl, ems = e1 :: tl := by
    cases ems with
    | nil => simp at h2
    | cons a t => exact ⟨a, t, rfl⟩
  obtain ⟨el, hel⟩ : ∃ el, (e1 :: tl).getLast? = some el := by
    cases hgl : (e1 :: tl).getLast? with
    | none => exact absurd hgl (by simp)
    | some x => exact ⟨x, rfl⟩
  unfold is_full_match
  rw [if_neg (by simp : ¬ (none ∈ (e1 :: tl).map (fun em => some [em])))]
  have hlen2 : 0 < tl.length := by simpa using h2
  rw [if_neg (by simp only [List.length_map, List.length_cons]; omega :
        ¬ ((e1 :: tl).map (fun em => some [em])).length = 1)]
  rw [if_neg (by
        simp only [List.any_eq_true, List.mem_map, not_exists]
        rintro m ⟨⟨em, hem, rfl⟩, hgt⟩
        simp at hgt)]
  have hlast1 : ((e1 :: tl).map (fun em => (some [em] : BlockMatches))).getLastD none
      = some [el] := by
    rw [List.getLastD_eq_getLast?, List.getLast?_map, hel]
    rfl
  have hlast2 : (e1 :: tl).getLastD dfltMatch = el := by
    rw [List.getLastD_eq_getLast?, hel]
    rfl
  have hexons : List.map (fun m => ((Option.getD m []).headD dfltMatch).1)
        (List.map (fun em => (some [em] : BlockMatches)) (e1 :: tl))
      = List.map Prod.fst (e1 :: tl) := by
    rw [List.map_map]
    rfl
  have harith : tl.length + 1 - 2 = tl.dropLast.length := by
    simp [List.length_dropLast]
  have hch1 := pair_filter_count_iff (fun a b : Nat => b == a + 1)
      (List.map Prod.fst (e1 :: tl))
  have hch2 := pair_filter_count_iff (fun a b : Nat => (b : Int) == (a : Int) - 1)
      (List.map Prod.fst (e1 :: tl))
  have hchl : (List.map Prod.fst (e1 :: tl)).length - 1 = tl.length + 1 - 1 := by
    simp
  rw [hchl] at hch1 hch2
  have hiff1 : (List.map Prod.fst (e1 :: tl)).Chain' (fun a b => (b == a + 1) = true) ↔
      (List.map Prod.fst (e1 :: tl)).Chain' (fun a b => b = a + 1) :=
    chain'_iff_of_iff (fun a b => by simp)
  have hiff2 : (List.map Prod.fst (e1 :: tl)).Chain'
        (fun a b : Nat => ((b : Int) == (a : Int) - 1) = true) ↔
      (List.map Prod.fst (e1 :: tl)).Chain' (fun a b : Nat => (b : Int) = (a : Int) - 1) :=
    chain'_iff_of_iff (fun a b => by simp)
  rw [hiff1] at hch1
  rw [hiff2] at hch2
  have hhead : (List.map (fun em => (some [em] : BlockMatches)) (e1 :: tl)).headD none
      = some [e1] := rfl
  have hdrop : (List.map (fun em => (some [em] : BlockMatches)) (e1 :: tl)).drop 1
      = List.map (fun em => (some [em] : BlockMatches)) tl := rfl
  have hdl : (List.drop 1 (e1 :: tl)).dropLast = tl.dropLast := rfl
  simp only [hexons, hlast1, hlast2, hhead, hdrop, hdl]
  simp only [Option.getD_some, List.headD_cons, ← List.map_dropLast, List.filter_map,
    Function.comp, List.length_map, List.length_cons, harith,
    List.filter_length_eq_length, hch1, hch2, beq_iff_eq]
  split_ifs with hc
  · exact iff_of_true rfl hc
  · exact iff_of_false (by simp) hc

/-- a list whose members are all `some`-singletons is the image of a
`List ExonMatch`. -/
theorem exists_map_of_sing :
    ∀ (l : List BlockMatches), (∀ m ∈ l, ∃ em, m = some [em]) →
      ∃ ems : List ExonMatch, l = ems.map (fun em => some [em])
  | [], _ => ⟨[], rfl⟩
  | m :: t, h => by
    obtain ⟨em, hem⟩ := h m (by simp)
    obtain ⟨ems, hems⟩ := exists_map_of_sing t (fun x hx => h x (by simp [hx]))
    exact ⟨em :: ems, by rw [hem, hems]; rfl⟩

/-- C6: `is_full_match` is true exactly when (a) a single block matches
exactly one exon with code `==`, `>=` or `=<`, or (b) there are multiple
blocks, each matching exactly one exon, the first block's end-code and
the last block's start-code are `=`, every interior code is `==`, and the
matched exon indices form a run of consecutive integers ascending or
descending by 1; and it is false whenever some block has no match. -/
theorem is_full_match_iff (bm : List BlockMatches) (hwf : ∀ m ∈ bm, m ≠ some []) :
    (is_full_match bm = true ↔
      ((∃ em : ExonMatch, bm = [some [em]] ∧
          (em.2 = ('=', '=') ∨ em.2 = ('>', '=') ∨ em.2 = ('=', '<'))) ∨
       (∃ ems : List ExonMatch, bm = ems.map (fun em => some [em]) ∧ 1 < ems.length ∧
          (ems.headD dfltMatch).2.2 = '=' ∧
          (ems.getLastD dfltMatch).2.1 = '=' ∧
          (∀ em ∈ (ems.drop 1).dropLast, em.2 = ('=', '=')) ∧
          ((ems.map Prod.fst).Chain' (fun a b => b = a + 1) ∨
           (ems.map Prod.fst).Chain' (fun a b : Nat => (b : Int) = (a : Int) - 1))))) ∧
    (none ∈ bm → is_full_match bm = false) := by
  have hnoneCase : none ∈ bm → is_full_match bm = false := by
    intro hin
    unfold is_full_match
    rw [if_pos hin]
  refine ⟨?_, hnoneCase⟩
  by_cases hn : none ∈ bm
  · rw [hnoneCase hn]
    constructor
    · intro h
      cases h
    · rintro (⟨em, rfl, _⟩ | ⟨ems, rfl, _, _⟩)
      · simp at hn
      · simp at hn
  · cases bm with
    | nil =>
      constructor
      · intro h
        rw [show is_full_match [] = false from by decide] at h
        cases h
      · rintro (⟨em, h, _⟩ | ⟨ems, h, hlen, _⟩)
        · cases h
        · have hnil : ems = [] := by
            cases ems with
            | nil => rfl
            | cons a t => simp at h
          subst hnil
          simp at hlen
    | cons m1 rest =>
      cases rest with
      | nil =>
        have hm1 : m1 ≠ none := by
          intro h
          exact hn (by simp [h])
        obtain ⟨ms, rfl⟩ : ∃ ms, m1 = some ms := by
          cases m1 with
          | none => exact absurd rfl hm1
          | some ms => exact ⟨ms, rfl⟩
        have hms : ms ≠ [] := by simpa using hwf (some ms) (by simp)
        have hlen1 : ([some ms] : List BlockMatches).length = 1 := rfl
        constructor
        · intro h
          unfold is_full_match at h
          rw [if_neg hn, if_pos hlen1] at h
          simp only [List.headD_cons, Option.getD_some] at h
          by_cases hl : ms.length = 1
          · obtain ⟨em, rfl⟩ := List.length_eq_one.mp hl
            rw [if_pos hl] at h
            left
            exact ⟨em, rfl, by simpa using of_decide_eq_true h⟩
          · rw [if_neg hl] at h
            cases h
        · rintro (⟨em, heq, hcodes⟩ | ⟨ems, heq, hlen, _⟩)
          · have hmse : ms = [em] := by simpa using heq
            subst hmse
            unfold is_full_match
            rw [if_neg hn, if_pos hlen1]
            simp only [List.headD_cons, Option.getD_some]
            rw [if_pos (show ([em] : List ExonMatch).length = 1 from rfl)]
            exact decide_eq_true (by simpa using hcodes)
          · have hl1 : 1 = ems.length := by
              have := congrArg List.length heq
              simpa using this
            omega
      | cons m2 rest2 =>
        by_cases hany : ∃ m ∈ (m1 :: m2 :: rest2), ((m.getD []).length > 1)
        · have hLHS : is_full_match (m1 :: m2 :: rest2) = false := by
            unfold is_full_match
            rw [if_neg hn, if_neg (by simp)]
            rw [if_pos (by
              simp only [List.any_eq_true]
              obtain ⟨m, hm, hgt⟩ := hany
              exact ⟨m, hm, by simpa using hgt⟩)]
          rw [hLHS]
          constructor
          · intro h
            cases h
          · rintro (⟨em, heq, _⟩ | ⟨ems, heq, _, _⟩)
            · cases heq
            · obtain ⟨m, hm, hgt⟩ := hany
              rw [heq] at hm
              obtain ⟨em2, _, rfl⟩ := List.mem_map.mp hm
              simp at hgt
        · push_neg at hany
          have hsing : ∀ m ∈ (m1 :: m2 :: rest2), ∃ em, m = some [em] := by
            intro m hm
            cases m with
            | none => exact absurd hm hn
            | some ms =>
              cases ms with
              | nil => exact absurd rfl (hwf (some []) hm)
              | cons a t =>
                cases t with
                | nil => exact ⟨a, rfl⟩
                | cons b t2 =>
                  have := hany (some (a :: b :: t2)) hm
                  simp at this
          obtain ⟨ems, heq⟩ := exists_map_of_sing _ hsing
          have hlen : 1 < ems.length := by
            have := congrArg List.length heq
            simp at this
            omega
          have hinj : Function.Injective (fun em : ExonMatch => (some [em] : BlockMatches)) := by
            intro a b hab
            simpa using hab
          rw [heq, is_full_match_map ems hlen]
          constructor
          · intro hconds
            right
            exact ⟨ems, rfl, hlen, hconds.1, hconds.2.1, hconds.2.2.1, hconds.2.2.2⟩
          · rintro (⟨em, hemEq, _⟩ | ⟨ems2, hemsEq, _, hc1, hc2, hc3, hc4⟩)
            · have := congrArg List.length hemEq
              simp at this
              omega
            · have hee : ems = ems2 := List.map_injective_iff.mpr hinj hemsEq
              subst hee
              exact ⟨hc1, hc2, hc3, hc4⟩

/-- the default of `getLastD` is irrelevant on a nonempty list. -/
theorem getLastD_irrel {α : Type} (a : α) (t : List α) (d1 d2 : α) :
    (a :: t).getLastD d1 = (a :: t).getLastD d2 := by
  rw [List.getLastD_eq_getLast?, List.getLastD_eq_getLast?]
  cases hgl : (a :: t).getLast? with
  | none => simp at hgl
  | some x => rfl

/-- the tail of the `pick_best` score loop (all indices positive): no
block can take the first-block edge bonus, the last block takes the
end-edge bonus, and every block takes its inward bonuses. -/
theorem pb_score_go_pos :
    ∀ (l : List BlockMatches) (n i : Nat), 0 < i → i + l.length = n →
      pb_score_go n i l = endEdgeBonus (l.getLastD none) + (l.map inwardBonus).sum
  | [], n, i, _, _ => by
    simp [pb_score_go, endEdgeBonus]
  | [m], n, i, hi, hn => by
    have hin : i = n - 1 := by
      simp at hn
      omega
    have h0 : ¬ i = 0 := by omega
    cases m with
    | none =>
      simp [pb_score_go, endEdgeBonus, inwardBonus]
    | some ms =>
      show ((if i = 0 then
              (if (ms.headD dfltMatch).2.1 = '=' then (5 : Int)
               else if (ms.headD dfltMatch).2.1 = '>' then 2 else 0)
            else if i = n - 1 then
              (if (ms.getLastD dfltMatch).2.2 = '=' then (5 : Int)
               else if (ms.getLastD dfltMatch).2.2 = '<' then 2 else 0)
            else 0) +
            (if (ms.headD dfltMatch).2.2 = '=' then (4 : Int) else 0) +
            (if (ms.getLastD dfltMatch).2.2 = '=' then (4 : Int) else 0)) +
          pb_score_go n (i + 1) [] =
        endEdgeBonus ([some ms].getLastD none) + (List.map inwardBonus [some ms]).sum
      rw [if_neg h0, if_pos hin]
      simp [endEdgeBonus, inwardBonus, pb_score_go]
      ring
  | m :: m2 :: t, n, i, hi, hn => by
    have hlen : i + (t.length + 2) = n := by simpa using hn
    have ih := pb_score_go_pos (m2 :: t) n (i + 1) (by omega)
      (by simp only [List.length_cons]; omega)
    have hne : ¬ i = n - 1 := by omega
    have h0 : ¬ i = 0 := by omega
    have hlast : (m :: m2 :: t).getLastD none = (m2 :: t).getLastD none := by
      rw [List.getLastD_cons]
      exact getLastD_irrel m2 t m none
    cases m with
    | none =>
      show (0 : Int) + pb_score_go n (i + 1) (m2 :: t) =
        endEdgeBonus ((none :: m2 :: t).getLastD none) +
          (List.map inwardBonus (none :: m2 :: t)).sum
      rw [ih, hlast]
      simp [inwardBonus]
    | some ms =>
      show ((if i = 0 then
              (if (ms.headD dfltMatch).2.1 = '=' then (5 : Int)
               else if (ms.headD dfltMatch).2.1 = '>' then 2 else 0)
            else if i = n - 1 then
              (if (ms.getLastD dfltMatch).2.2 = '=' then (5 : Int)
               else if (ms.getLastD dfltMatch).2.2 = '<' then 2 else 0)
            else 0) +
            (if (ms.headD dfltMatch).2.2 = '=' then (4 : Int) else 0) +
            (if (ms.getLastD dfltMatch).2.2 = '=' then (4 : Int) else 0)) +
          pb_score_go n (i + 1) (m2 :: t) =
        endEdgeBonus ((some ms :: m2 :: t).getLastD none) +
          (List.map inwardBonus (some ms :: m2 :: t)).sum
      rw [if_neg h0, if_neg hne, ih, hlast]
      simp [inwardBonus]
      ring

/-- C2 (amended score equality): the score computed by the
`Mapping.pick_best` loop equals the amended formula, in which the `+4`
inward bonuses accrue for *every* matched block and the last-block edge
bonus applies only when the block is not also the first. -/
theorem pb_score_eq_amendedScoreC2 (ms : List BlockMatches) :
    pb_score ms = amendedScoreC2 ms := by
  cases ms with
  | nil => rfl
  | cons m rest =>
    cases rest with
    | nil =>
      cases m with
      | none => rfl
      | some l =>
        show ((if (0 : Nat) = 0 then
                (if (l.headD dfltMatch).2.1 = '=' then (5 : Int)
                 else if (l.headD dfltMatch).2.1 = '>' then 2 else 0)
              else if (0 : Nat) = ([some l] : List BlockMatches).length - 1 then
                (if (l.getLastD dfltMatch).2.2 = '=' then (5 : Int)
                 else if (l.getLastD dfltMatch).2.2 = '<' then 2 else 0)
              else 0) +
              (if (l.headD dfltMatch).2.2 = '=' then (4 : Int) else 0) +
              (if (l.getLastD dfltMatch).2.2 = '=' then (4 : Int) else 0)) +
            pb_score_go 1 1 [] = amendedScoreC2 [some l]
        rw [if_pos (show (0 : Nat) = 0 from rfl)]
        simp [amendedScoreC2, startEdgeBonus, inwardBonus, pb_score_go]
        ring
    | cons m2 t =>
      have hgo := pb_score_go_pos (m2 :: t) (m :: m2 :: t).length 1 (by omega)
        (by simp only [List.length_cons]; omega)
      have hlast : (m :: m2 :: t).getLastD none = (m2 :: t).getLastD none := by
        rw [List.getLastD_cons]
        exact getLastD_irrel m2 t m none
      have hlen : ((m :: m2 :: t) : List BlockMatches).length > 1 := by simp
      cases m with
      | none =>
        show (0 : Int) + pb_score_go ((none :: m2 :: t) : List BlockMatches).length 1 (m2 :: t)
            = amendedScoreC2 (none :: m2 :: t)
        rw [hgo]
        simp only [amendedScoreC2, startEdgeBonus, List.headD_cons, hlast, if_pos hlen,
          List.map_cons, List.sum_cons, inwardBonus]
        ring
      | some l =>
        show ((if (0 : Nat) = 0 then
                (if (l.headD dfltMatch).2.1 = '=' then (5 : Int)
                 else if (l.headD dfltMatch).2.1 = '>' then 2 else 0)
              else if (0 : Nat) = ((some l :: m2 :: t) : List BlockMatches).length - 1 then
                (if (l.getLastD dfltMatch).2.2 = '=' then (5 : Int)
                 else if (l.getLastD dfltMatch).2.2 = '<' then 2 else 0)
              else 0) +
              (if (l.headD dfltMatch).2.2 = '=' then (4 : Int) else 0) +
              (if (l.getLastD dfltMatch).2.2 = '=' then (4 : Int) else 0)) +
            pb_score_go ((some l :: m2 :: t) : List BlockMatches).length 1 (m2 :: t)
            = amendedScoreC2 (some l :: m2 :: t)
        rw [if_pos (show (0 : Nat) = 0 from rfl), hgo]
        simp only [amendedScoreC2, startEdgeBonus, List.headD_cons, hlast, if_pos hlen,
          List.map_cons, List.sum_cons, inwardBonus]
        ring

/-- `keyLt` is irreflexive. -/
theorem keyLt_irrefl (a : Int × Int × Int) : keyLt a a = false := by
  simp [keyLt]

/-- transitivity of the non-strict order underlying `keyLt`
(`keyLt b a = false` reads "a ≤ b"). -/
theorem keyLt_le_trans {a b c : Int × Int × Int}
    (h1 : keyLt b a = false) (h2 : keyLt c b = false) : keyLt c a = false := by
  simp only [keyLt, decide_eq_false_iff_not] at h1 h2 ⊢
  omega

/-- asymmetry of `keyLt`. -/
theorem keyLt_asymm {a b : Int × Int × Int} (h : keyLt a b = true) :
    keyLt b a = false := by
  simp only [keyLt, decide_eq_true_eq, decide_eq_false_iff_not] at h ⊢
  omega

/-- the selection fold of `pick_best` returns its accumulator or a list
member. -/
theorem sel_mem :
    ∀ (rest : List (Transcript × (Int × Int × Int))) (acc : Transcript × (Int × Int × Int)),
      rest.foldl (fun a q => if keyLt q.2 a.2 then q else a) acc = acc ∨
      rest.foldl (fun a q => if keyLt q.2 a.2 then q else a) acc ∈ rest
  | [], _ => Or.inl rfl
  | q :: rest, acc => by
    show List.foldl (fun a q => if keyLt q.2 a.2 then q else a)
          (if keyLt q.2 acc.2 then q else acc) rest = acc ∨
        List.foldl (fun a q => if keyLt q.2 a.2 then q else a)
          (if keyLt q.2 acc.2 then q else acc) rest ∈ q :: rest
    rcases sel_mem rest (if keyLt q.2 acc.2 then q else acc) with h | h
    · rw [h]
      by_cases hq : keyLt q.2 acc.2
      · rw [if_pos hq]
        exact Or.inr (List.mem_cons_self q rest)
      · rw [if_neg hq]
        exact Or.inl rfl
    · exact Or.inr (List.mem_cons_of_mem q h)

/-- the selection fold of `pick_best` returns an element whose key is
lexicographically minimal among the accumulator and all list members. -/
theorem sel_min :
    ∀ (rest : List (Transcript × (Int × Int × Int))) (acc x : Transcript × (Int × Int × Int)),
      (x = acc ∨ x ∈ rest) →
      keyLt x.2 (rest.foldl (fun a q => if keyLt q.2 a.2 then q else a) acc).2 = false
  | [], acc, x, hx => by
    rcases hx with rfl | h
    · exact keyLt_irrefl _
    · simp at h
  | q :: rest, acc, x, hx => by
    have hacc' : keyLt acc.2 (if keyLt q.2 acc.2 then q else acc).2 = false ∧
        keyLt q.2 (if keyLt q.2 acc.2 then q else acc).2 = false := by
      by_cases hq : keyLt q.2 acc.2
      · rw [if_pos hq]
        exact ⟨keyLt_asymm hq, keyLt_irrefl _⟩
      · rw [if_neg hq]
        exact ⟨keyLt_irrefl _, Bool.eq_false_iff.mpr hq⟩
    have hres := sel_min rest (if keyLt q.2 acc.2 then q else acc)
      (if keyLt q.2 acc.2 then q else acc) (Or.inl rfl)
    show keyLt x.2
        (List.foldl (fun a q => if keyLt q.2 a.2 then q else a)
          (if keyLt q.2 acc.2 then q else acc) rest).2 = false
    rcases hx with rfl | hx
    · exact keyLt_le_trans hres hacc'.1
    · rcases List.mem_cons.mp hx with rfl | hx
      · exact keyLt_le_trans hres hacc'.2
      · exact sel_min rest (if keyLt q.2 acc.2 then q else acc) x (Or.inr hx)

/-- C1 (amended): `Mapping.pick_best` ranks candidates by score
descending, then from-edge distance ascending, then transcript length
*ascending*: the selected transcript is a candidate whose sort key
`(-score, from_edge, txt_size)` is lexicographically minimal; in
particular, of two candidates with identical score and identical
from-edge distance, the *shorter* transcript is selected. -/
theorem pick_best_ranking :
    (∀ (mappings : List (Transcript × List BlockMatches)) (tstart tend : Int),
      mappings ≠ [] →
      ∃ mb, (pick_best_transcript mappings tstart tend, mb) ∈ mappings ∧
        ∀ t m, (t, m) ∈ mappings →
          keyLt (sortKey (pb_metric t m tstart tend))
            (sortKey (pb_metric (pick_best_transcript mappings tstart tend) mb tstart tend))
            = false) ∧
    (∀ (t1 t2 : Transcript) (m1 m2 : List BlockMatches) (tstart tend : Int),
      pb_score m1 - pb_penalty m1 = pb_score m2 - pb_penalty m2 →
      pb_from_edge m1 t1 tstart tend = pb_from_edge m2 t2 tstart tend →
      t1.txtLength < t2.txtLength →
      pick_best_transcript [(t1, m1), (t2, m2)] tstart tend = t1) := by
  constructor
  · intro mappings tstart tend hne
    cases mappings with
    | nil => exact absurd rfl hne
    | cons p0 ps =>
      set f : Transcript × List BlockMatches → Transcript × (Int × Int × Int) :=
        fun p => (p.1, sortKey (pb_metric p.1 p.2 tstart tend)) with hf
      set r := (ps.map f).foldl (fun a q => if keyLt q.2 a.2 then q else a) (f p0) with hr
      have hbest : pick_best_transcript (p0 :: ps) tstart tend = r.1 := rfl
      have hrmem : r ∈ (p0 :: ps).map f := by
        rcases sel_mem (ps.map f) (f p0) with h | h
        · rw [← hr] at h
          rw [h]
          exact List.mem_map_of_mem f (List.mem_cons_self p0 ps)
        · rw [← hr] at h
          rw [List.map_cons]
          exact List.mem_cons_of_mem (f p0) h
      obtain ⟨p', hp'mem, hp'⟩ := List.mem_map.mp hrmem
      refine ⟨p'.2, ?_, ?_⟩
      · rw [hbest, ← hp']
        simpa using hp'mem
      · intro t m htm
        have hx : f (t, m) = f p0 ∨ f (t, m) ∈ ps.map f := by
          rcases List.mem_cons.mp htm with rfl | h
          · exact Or.inl rfl
          · exact Or.inr (List.mem_map_of_mem f h)
        have := sel_min (ps.map f) (f p0) (f (t, m)) (by
          rcases hx with h | h
          · exact Or.inl h
          · exact Or.inr h)
        rw [← hr] at this
        have hkey : (f (t, m)).2 = sortKey (pb_metric t m tstart tend) := rfl
        rw [hkey] at this
        have hrkey : r.2 = sortKey (pb_metric r.1 p'.2 tstart tend) := by
          rw [← hp']
        rw [hbest, ← hrkey]
        exact this
  · intro t1 t2 m1 m2 tstart tend hs he hl
    unfold pick_best_transcript
    simp only [List.map_cons, List.map_nil, List.foldl_cons, List.foldl_nil]
    rw [if_neg (by
      simp only [keyLt, sortKey, pb_metric, decide_eq_true_eq]
      push_neg
      omega)]

/-- counterexample to C1 as stated: two candidates with identical
score (26) and identical from-edge distance (0); the claim predicts the
longer transcript (length 120), but `pick_best` selects the shorter one
(length 20), because the sort key orders `txt_size` ascending. -/
theorem pick_best_tie_counterexample :
    pick_best_transcript
        [(Transcript.mk "T1" "G" '+' [(1, 10), (91, 100)],
          [some [(0, ('=', '='))], some [(1, ('=', '='))]]),
         (Transcript.mk "T2" "G" '+' [(1, 10), (91, 100), (201, 300)],
          [some [(0, ('=', '='))], some [(1, ('=', '='))]])] 1 100 =
      Transcript.mk "T1" "G" '+' [(1, 10), (91, 100)] ∧
    pb_metric (Transcript.mk "T1" "G" '+' [(1, 10), (91, 100)])
        [some [(0, ('=', '='))], some [(1, ('=', '='))]] 1 100 = (26, 0, 20) ∧
    pb_metric (Transcript.mk "T2" "G" '+' [(1, 10), (91, 100), (201, 300)])
        [some [(0, ('=', '='))], some [(1, ('=', '='))]] 1 100 = (26, 0, 120) ∧
    Transcript.mk "T1" "G" '+' [(1, 10), (91, 100)] ≠
      Transcript.mk "T2" "G" '+' [(1, 10), (91, 100), (201, 300)] := by
  refine ⟨by decide, by decide, by decide, by decide⟩

/-- witness for `pick_best_ranking` at the concrete tie of
`pick_best_tie_counterexample`: the shorter transcript wins. -/
theorem pick_best_ranking_witness :
    pick_best_transcript
        [(Transcript.mk "T1" "G" '+' [(1, 10), (91, 100)],
          [some [(0, ('=', '='))], some [(1, ('=', '='))]]),
         (Transcript.mk "T2" "G" '+' [(1, 10), (91, 100), (201, 300)],
          [some [(0, ('=', '='))], some [(1, ('=', '='))]])] 1 100 =
      Transcript.mk "T1" "G" '+' [(1, 10), (91, 100)] :=
  pick_best_ranking.2
    (Transcript.mk "T1" "G" '+' [(1, 10), (91, 100)])
    (Transcript.mk "T2" "G" '+' [(1, 10), (91, 100), (201, 300)])
    [some [(0, ('=', '='))], some [(1, ('=', '='))]]
    [some [(0, ('=', '='))], some [(1, ('=', '='))]]
    1 100 (by decide) (by decide) (by decide)

/-- counterexample to C2 as stated: on a 3-block mapping whose blocks all
carry code `==`, the loop's score minus penalty is 34 (every block earns
the two +4 bonuses), while the claim's formula (which grants the +4
bonuses only to the first and last block) yields 18. -/
theorem pick_best_score_counterexample :
    pb_score [some [(0, ('=', '='))], some [(1, ('=', '='))], some [(2, ('=', '='))]] -
        pb_penalty [some [(0, ('=', '='))], some [(1, ('=', '='))], some [(2, ('=', '='))]]
      = 34 ∧
    claimScoreC2 [some [(0, ('=', '='))], some [(1, ('=', '='))], some [(2, ('=', '='))]]
      = 18 ∧
    (34 : Int) ≠ 18 := by
  refine ⟨by decide, by decide, by decide⟩

/-- C2 (amended): the `pick_best` metric equals the amended formula: the
score is `amendedScoreC2` minus the claim's penalty (the +4 bonuses
accrue for every matched block), and the from-edge metric is the sentinel
10000 when the first or last block is unmatched and otherwise
`tstart - start_exon.start + (tend - end_exon.end)` over the terminal
matched exons (for either strand). -/
theorem pick_best_metric_amended :
    (∀ ms : List BlockMatches,
      pb_score ms - pb_penalty ms = amendedScoreC2 ms - pb_penalty ms) ∧
    (∀ (ms : List BlockMatches) (t : Transcript) (tstart tend : Int),
      ((ms.headD none = none ∨ ms.getLastD none = none) →
        pb_from_edge ms t tstart tend = 10000) ∧
      (∀ m0 mlast, ms.headD none = some m0 → ms.getLastD none = some mlast →
        pb_from_edge ms t tstart tend =
          tstart - (t.exons.getD (m0.headD dfltMatch).1 (0, 0)).1 +
          (tend - (t.exons.getD (mlast.getLastD dfltMatch).1 (0, 0)).2))) := by
  constructor
  · intro ms
    rw [pb_score_eq_amendedScoreC2]
  · intro ms t tstart tend
    constructor
    · intro hor
      unfold pb_from_edge
      rcases hor with h | h
      · rw [h]
      · rw [h]
        cases ms.headD none <;> rfl
    · intro m0 mlast h0 hl
      have hgd : ∀ idx : Nat,
          t.exons.getD (t.exons.length - (t.exons.length - idx)) (0, 0) =
            t.exons.getD idx (0, 0) := by
        intro idx
        by_cases hlt : idx < t.exons.length
        · congr 1
          omega
        · rw [List.getD_eq_default _ _ (by omega), List.getD_eq_default _ _ (by omega)]
      unfold pb_from_edge
      rw [h0, hl]
      by_cases hp : t.strand = '+'
      · simp only [if_pos hp, Transcript.exon, Transcript.num_exons, Nat.add_sub_cancel]
      · simp only [if_neg hp, Transcript.exon, Transcript.num_exons, hgd]

/-- witness for `pick_best_metric_amended` on a concrete single-block
mapping over a `-`-strand transcript. -/
theorem pick_best_metric_amended_witness :
    pb_from_edge [some [(0, ('=', '='))]] (Transcript.mk "t" "g" '-' [(1, 10)]) 1 10 =
      1 - (([(((1 : Int), (10 : Int)))].getD 0 (0, 0)).1) +
      (10 - (([(((1 : Int), (10 : Int)))].getD 0 (0, 0)).2)) :=
  (pick_best_metric_amended.2 [some [(0, ('=', '='))]]
      (Transcript.mk "t" "g" '-' [(1, 10)]) 1 10).2
    [(0, ('=', '='))] [(0, ('=', '='))] rfl rfl

/-- C10: when `detect_itd` reclassifies through the exact-match (regex)
path, only the event kind and the contig breakpoints change; the genomic
breakpoints and the novel sequence are left untouched, because
`update_attrs` is called without a contig sequence on that path. -/
theorem detect_itd_regex_frame (adj : Adjacency) (strand : Char) (contig_seq : String)
    (min_len : Nat) (max_apart : Int) (min_pid : ℚ) (rows : List BlastRow)
    (d : (Nat × Nat) × (Nat × Nat))
    (hdup : regexDup adj strand contig_seq min_len max_apart = some d) :
    detect_itd adj strand contig_seq min_len max_apart min_pid rows =
      { adj with rna_event := "ITD", contig_breaks := ((d.1.2 : Int), (d.2.1 : Int)) } ∧
    (detect_itd adj strand contig_seq min_len max_apart min_pid rows).breaks = adj.breaks ∧
    (detect_itd adj strand contig_seq min_len max_apart min_pid rows).novel_seq
      = adj.novel_seq := by
  have h : detect_itd adj strand contig_seq min_len max_apart min_pid rows =
      update_attrs adj strand (natSpans d) none := by
    unfold detect_itd
    rw [hdup]
  exact ⟨by rw [h]; rfl, by rw [h]; rfl, by rw [h]; rfl⟩

/-- witness for `detect_itd_regex_frame`: a `-`-strand insertion whose
reverse-complemented novel sequence occurs twice in the contig; kind and
contig breaks change, genomic breaks (50,60) and novel sequence `TTT`
do not. -/
theorem detect_itd_regex_frame_witness :
    detect_itd (Adjacency.mk "ins" (50, 60) (2, 3) "TTT") '-' "AAAGGAAA" 3 10 0 [] =
      Adjacency.mk "ITD" (50, 60) (3, 6) "TTT" ∧
    (detect_itd (Adjacency.mk "ins" (50, 60) (2, 3) "TTT") '-' "AAAGGAAA" 3 10 0 []).breaks
      = (Adjacency.mk "ins" (50, 60) (2, 3) "TTT").breaks ∧
    (detect_itd (Adjacency.mk "ins" (50, 60) (2, 3) "TTT") '-' "AAAGGAAA" 3 10 0 []).novel_seq
      = (Adjacency.mk "ins" (50, 60) (2, 3) "TTT").novel_seq :=
  detect_itd_regex_frame (Adjacency.mk "ins" (50, 60) (2, 3) "TTT") '-' "AAAGGAAA"
    3 10 0 [] ((1, 3), (6, 8)) (by decide)

/-- counterexample to C3 as stated: on the regex path a duplication is
found (the kind becomes `ITD`), yet the genomic breakpoints stay
`(200, 300)` — not the claim's strand-shifted value `(203, 204)` — and
the novel sequence is not rewritten. -/
theorem detect_itd_counterexample :
    (detect_itd (Adjacency.mk "ins" (200, 300) (4, 9) "AAA") '+' "GGAAAXXAAATT"
        3 10 0 []).rna_event = "ITD" ∧
    (detect_itd (Adjacency.mk "ins" (200, 300) (4, 9) "AAA") '+' "GGAAAXXAAATT"
        3 10 0 []).contig_breaks = (5, 8) ∧
    (detect_itd (Adjacency.mk "ins" (200, 300) (4, 9) "AAA") '+' "GGAAAXXAAATT"
        3 10 0 []).breaks = (200, 300) ∧
    (detect_itd (Adjacency.mk "ins" (200, 300) (4, 9) "AAA") '+' "GGAAAXXAAATT"
        3 10 0 []).novel_seq = "AAA" ∧
    ((200 : Int), (300 : Int)) ≠ ((203 : Int), (204 : Int)) := by
  refine ⟨by decide, by decide, by decide, by decide, by decide⟩

/-- C3 (amended): `detect_itd` either finds no duplication and leaves the
adjacency unchanged, or finds one on the exact-match path and updates
only the kind and contig breakpoints, or finds one on the
alignment-fallback path and updates kind, contig breakpoints, genomic
breakpoints (shifted from the original first break by the distance from
the end of the first copy to the start of the second, direction depending
on strand) and the novel sequence (the second copy, reverse-complemented
on `-` strand) together. -/
theorem detect_itd_update_cases (adj : Adjacency) (strand : Char) (contig_seq : String)
    (min_len : Nat) (max_apart : Int) (min_pid : ℚ) (rows : List BlastRow) :
    (∀ d, regexDup adj strand contig_seq min_len max_apart = some d →
      detect_itd adj strand contig_seq min_len max_apart min_pid rows =
        { adj with rna_event := "ITD", contig_breaks := ((d.1.2 : Int), (d.2.1 : Int)) }) ∧
    (regexDup adj strand contig_seq min_len max_apart = none →
      (∀ d, search_by_align contig_seq.length (sortPair adj.contig_breaks) (min_len : Int)
          max_apart min_pid rows = some d →
        detect_itd adj strand contig_seq min_len max_apart min_pid rows =
          { adj with
              rna_event := "ITD"
              contig_breaks := (d.1.2, d.2.1)
              breaks :=
                if strand = '+' then
                  (adj.breaks.1 + (d.2.1 - d.1.2) - 1, adj.breaks.1 + (d.2.1 - d.1.2))
                else
                  (adj.breaks.1 - (d.2.1 - d.1.2), adj.breaks.1 - (d.2.1 - d.1.2) + 1)
              novel_seq :=
                if strand = '-' then
                  reverse_complement (pySlice contig_seq (d.2.1 - 1)
                    (d.2.1 - 1 + max (d.1.2 - d.1.1 + 1) (d.2.2 - d.2.1 + 1)))
                else
                  pySlice contig_seq (d.2.1 - 1)
                    (d.2.1 - 1 + max (d.1.2 - d.1.1 + 1) (d.2.2 - d.2.1 + 1)) }) ∧
      (search_by_align contig_seq.length (sortPair adj.contig_breaks) (min_len : Int)
          max_apart min_pid rows = none →
        detect_itd adj strand contig_seq min_len max_apart min_pid rows = adj)) := by
  refine ⟨?_, ?_⟩
  · intro d hd
    unfold detect_itd
    rw [hd]
    rfl
  · intro hreg
    refine ⟨?_, ?_⟩
    · intro d hal
      unfold detect_itd
      rw [hreg, hal]
      unfold update_attrs
      by_cases hp : strand = '+'
      · simp only [if_pos hp]
      · simp only [if_neg hp]
        have hm : ∀ b s : Int, b + s * (-1) = b - s := by
          intro b s
          ring
        rw [hm]
    · intro hal
      unfold detect_itd
      rw [hreg, hal]

/-- C4: for two consecutive blocks matching the same exon with upstream
end-code `<` and downstream start-code `>`, `classify_novel_junction`
emits exactly one event determined by the gap
`g = downstream start - upstream end - 1`: `ins` with null size when
`g = 0`, `novel_intron` of size `g` when `g > 0`, `g > 20` and the splice
motif is canonical, `del` of size `g` for other positive gaps (and
nothing when the blocks overlap, `g < 0`). -/
theorem classify_same_exon_gap (e : Nat) (x y : Char) (b0 b1 : Int × Int)
    (rest : List (Int × Int)) (chrom : String) (t : Transcript)
    (fetch : String → Int → Int → String) :
    classify_novel_junction (Match1Arg.single (e, (x, '<'))) (some (e, ('>', y))) chrom
        (BlocksArg.many (b0 :: b1 :: rest)) t fetch 20 =
      (if b1.1 - b0.2 - 1 = 0 then
        [⟨"ins", [e], (b0.2, b1.1), none⟩]
      else if 0 < b1.1 - b0.2 - 1 then
        (if 20 < b1.1 - b0.2 - 1 ∧
            check_splice_motif fetch chrom
              (if t.strand = '+' then b0.2 + 1 else b1.1 - 2)
              (if t.strand = '+' then b1.1 - 2 else b0.2 + 1) t.strand = true then
          [⟨"novel_intron", [e], (b0.2, b1.1), some (b1.1 - b0.2 - 1)⟩]
        else
          [⟨"del", [e], (b0.2, b1.1), some (b1.1 - b0.2 - 1)⟩])
      else []) := by
  have hskip : skippedExonEvents (e, (x, '<')) (e, ('>', y)) (b0.2, b1.1) t = [] := by
    unfold skippedExonEvents
    rw [if_neg (by rintro ⟨h1, -, -⟩; omega)]
  have hacc : novelAccEvents (e, (x, '<')) (e, ('>', y)) chrom b0.2 b1.1 (b0.2, b1.1)
      t fetch = [] := by
    unfold novelAccEvents
    rw [if_neg (by rintro ⟨h1, -⟩; simp at h1)]
  have hdon : novelDonEvents (e, (x, '<')) (e, ('>', y)) chrom b0.2 b1.1 (b0.2, b1.1)
      t fetch = [] := by
    unfold novelDonEvents
    rw [if_neg (by rintro ⟨-, h2⟩; simp at h2)]
  have hexn : novelExonEvents (e, (x, '<')) (e, ('>', y)) chrom b1.1
      (blkEndPenult (BlocksArg.many (b0 :: b1 :: rest))) t fetch = [] := by
    unfold novelExonEvents
    rw [if_neg (by rintro ⟨h1, -, -⟩; omega)]
  show skippedExonEvents (e, (x, '<')) (e, ('>', y)) (b0.2, b1.1) t ++
      sameExonGapEvents (e, (x, '<')) (e, ('>', y)) chrom b0.2 b1.1 t fetch 20 ++
      novelAccEvents (e, (x, '<')) (e, ('>', y)) chrom b0.2 b1.1 (b0.2, b1.1) t fetch ++
      novelDonEvents (e, (x, '<')) (e, ('>', y)) chrom b0.2 b1.1 (b0.2, b1.1) t fetch ++
      novelExonEvents (e, (x, '<')) (e, ('>', y)) chrom b1.1
        (blkEndPenult (BlocksArg.many (b0 :: b1 :: rest))) t fetch = _
  rw [hskip, hacc, hdon, hexn]
  simp only [List.nil_append, List.append_nil]
  unfold sameExonGapEvents
  rw [if_pos ⟨rfl, rfl, rfl⟩]
  by_cases hg0 : b1.1 - b0.2 - 1 = 0
  · rw [if_neg (by omega), if_pos hg0, if_pos hg0]
  · by_cases hgp : 0 < b1.1 - b0.2 - 1
    · rw [if_pos (by omega : b1.1 - b0.2 - 1 > 0), if_neg hg0, if_pos hgp]
    · rw [if_neg (by omega : ¬ b1.1 - b0.2 - 1 > 0), if_neg hg0, if_neg hg0, if_neg hgp]

/-- `getLastD` of a nonempty list is a member. -/
theorem getLastD_mem {α : Type} (a : α) (t : List α) (d : α) :
    (a :: t).getLastD d ∈ a :: t := by
  rw [List.getLastD_eq_getLast?]
  cases hgl : (a :: t).getLast? with
  | none => simp at hgl
  | some x => exact List.mem_of_mem_getLast? hgl

/-- the junction-side code character `pick_best` inspects for a block
match: the last exon-match's end-code on an `L` side, the first
exon-match's start-code on the other side. -/
def junctionChar (orient : Char) (l : List ExonMatch) : Char :=
  if orient = 'L' then (l.getLastD dfltMatch).2.2 else (l.headD dfltMatch).2.1

/-- well-formedness of one side's match map, as the exon mapper produces
it: a matched block has a nonempty match list whose codes are over
`{=,<,>}`. -/
def WfMatches (ms : List (String × Option (List ExonMatch))) : Prop :=
  ∀ p ∈ ms, ∀ l, p.2 = some l →
    l ≠ [] ∧ ∀ em ∈ l,
      (em.2.1 = '=' ∨ em.2.1 = '<' ∨ em.2.1 = '>') ∧
      (em.2.2 = '=' ∨ em.2.2 = '<' ∨ em.2.2 = '>')

/-- a side's score exceeds the 1000 `exon_bound_score` exactly when the
block is matched and its junction-side code character is `=`. -/
theorem fusionScore_pos_iff (orient : Char) (m : Option (List ExonMatch))
    (hwf : ∀ l, m = some l →
      l ≠ [] ∧ ∀ em ∈ l,
        (em.2.1 = '=' ∨ em.2.1 = '<' ∨ em.2.1 = '>') ∧
        (em.2.2 = '=' ∨ em.2.2 = '<' ∨ em.2.2 = '>')) :
    1000 < fusionScore orient m ↔ ∃ l, m = some l ∧ junctionChar orient l = '=' := by
  cases m with
  | none =>
    constructor
    · intro h
      simp [fusionScore] at h
    · rintro ⟨l, h, -⟩
      cases h
  | some l =>
    obtain ⟨hne, hcodes⟩ := hwf l rfl
    obtain ⟨a, t, rfl⟩ : ∃ a t, l = a :: t := by
      cases l with
      | nil => exact absurd rfl hne
      | cons a t => exact ⟨a, t, rfl⟩
    have hjb_mem : (if orient = 'L' then (a :: t).getLastD dfltMatch
        else (a :: t).headD dfltMatch) ∈ a :: t := by
      by_cases ho : orient = 'L'
      · rw [if_pos ho]
        exact getLastD_mem a t dfltMatch
      · rw [if_neg ho]
        exact List.mem_cons_self a t
    have hdist : (5 : Int) ≤
        (if (if orient = 'L' then ((a :: t).getLastD dfltMatch).2.1
             else ((a :: t).headD dfltMatch).2.2) = '=' then 15
         else if (if orient = 'L' then ((a :: t).getLastD dfltMatch).2.1
             else ((a :: t).headD dfltMatch).2.2) = '>' then 10
         else if (if orient = 'L' then ((a :: t).getLastD dfltMatch).2.1
             else ((a :: t).headD dfltMatch).2.2) = '<' then 5 else 0) := by
      obtain ⟨hc1, hc2⟩ := hcodes _ hjb_mem
      by_cases ho : orient = 'L'
      · simp only [if_pos ho] at hc1 hc2 ⊢
        rcases hc1 with h | h | h <;> rw [h] <;> simp
      · simp only [if_neg ho] at hc1 hc2 ⊢
        rcases hc2 with h | h | h <;> rw [h] <;> simp
    show 1000 <
        (let jb := if orient = 'L' then (a :: t).getLastD dfltMatch
          else (a :: t).headD dfltMatch
        let jc := if orient = 'L' then jb.2.2 else jb.2.1
        let dc := if orient = 'L' then jb.2.1 else jb.2.2
        (if jc = '=' then 1000 else 0) +
          (if dc = '=' then 15 else if dc = '>' then 10
           else if dc = '<' then 5 else 0)) ↔ _
    simp only []
    by_cases hjc : (if orient = 'L' then
        (if orient = 'L' then (a :: t).getLastD dfltMatch
          else (a :: t).headD dfltMatch).2.2
      else
        (if orient = 'L' then (a :: t).getLastD dfltMatch
          else (a :: t).headD dfltMatch).2.1) = '='
    · constructor
      · intro _
        refine ⟨a :: t, rfl, ?_⟩
        unfold junctionChar
        by_cases ho : orient = 'L'
        · simpa [ho] using hjc
        · simpa [ho] using hjc
      · intro _
        rw [if_pos hjc]
        by_cases ho : orient = 'L'
        · simp only [if_pos ho] at hdist ⊢
          omega
        · simp only [if_neg ho] at hdist ⊢
          omega
    · constructor
      · intro hgt
        rw [if_neg hjc] at hgt
        by_cases ho : orient = 'L'
        · simp only [if_pos ho] at hgt
          split_ifs at hgt <;> omega
        · simp only [if_neg ho] at hgt
          split_ifs at hgt <;> omega
      · rintro ⟨l2, hl2, hjc2⟩
        have : l2 = a :: t := by
          injection hl2 with hinj
          exact hinj.symm
        subst this
        unfold junctionChar at hjc2
        exact absurd (by
          by_cases ho : orient = 'L'
          · simpa [ho] using hjc2
          · simpa [ho] using hjc2) hjc

/-- strict lower bounds propagate through the running-maximum fold that
computes `max(scores.values())`. -/
theorem foldl_max_pairs_gt (c : Int) :
    ∀ (l : List (String × Int)) (a : Int),
      (c < l.foldl (fun x q => max x q.2) a) ↔ (c < a ∨ ∃ q ∈ l, c < q.2)
  | [], a => by simp
  | q :: t, a => by
    have ih := foldl_max_pairs_gt c t (max a q.2)
    show c < t.foldl (fun x q => max x q.2) (max a q.2) ↔ _
    rw [ih]
    constructor
    · rintro (h | h)
      · rcases lt_max_iff.mp h with h | h
        · exact Or.inl h
        · exact Or.inr ⟨q, by simp, h⟩
      · obtain ⟨p, hp, hc⟩ := h
        exact Or.inr ⟨p, by simp [hp], hc⟩
    · rintro (h | ⟨p, hp, hc⟩)
      · exact Or.inl (lt_max_iff.mpr (Or.inl h))
      · rcases List.mem_cons.mp hp with rfl | hp
        · exact Or.inl (lt_max_iff.mpr (Or.inr hc))
        · exact Or.inr ⟨p, hp, hc⟩

/-- a side of `identify_fusion` is exon-bound (`best_score >
exon_bound_score`) exactly when some candidate's junction-side code
character is `=`, i.e. when the +1000 term was contributed. -/
theorem fusion_pick_best_exon_bound (ms : List (String × Option (List ExonMatch)))
    (txtLen : String → Int) (orient : Char) (hwf : WfMatches ms) :
    (fusion_pick_best ms txtLen orient).2 = true ↔
      ∃ p ∈ ms, ∃ l, p.2 = some l ∧ junctionChar orient l = '=' := by
  cases ms with
  | nil =>
    constructor
    · intro h
      simp [fusion_pick_best] at h
    · rintro ⟨p, hp, -⟩
      simp at hp
  | cons p0 ps =>
    rw [show (fusion_pick_best (p0 :: ps) txtLen orient).2 =
        decide (1000 < (ps.map (fun p => (p.1, fusionScore orient p.2))).foldl
          (fun a q => max a q.2) (fusionScore orient p0.2)) from rfl]
    rw [decide_eq_true_iff, foldl_max_pairs_gt]
    constructor
    · rintro (h | ⟨q, hq, hgt⟩)
      · obtain ⟨l, hl, hjc⟩ := (fusionScore_pos_iff orient p0.2
          (fun l hl => hwf p0 (by simp) l hl)).mp h
        exact ⟨p0, by simp, l, hl, hjc⟩
      · obtain ⟨p, hp, rfl⟩ := List.mem_map.mp hq
        obtain ⟨l, hl, hjc⟩ := (fusionScore_pos_iff orient p.2
          (fun l hl => hwf p (by simp [hp]) l hl)).mp hgt
        exact ⟨p, by simp [hp], l, hl, hjc⟩
    · rintro ⟨p, hp, l, hl, hjc⟩
      rcases List.mem_cons.mp hp with rfl | hp
      · exact Or.inl ((fusionScore_pos_iff orient p.2
          (fun l hl => hwf p (by simp) l hl)).mpr ⟨l, hl, hjc⟩)
      · exact Or.inr ⟨(p.1, fusionScore orient p.2),
          List.mem_map_of_mem _ hp,
          (fusionScore_pos_iff orient p.2
            (fun l hl => hwf p (by simp [hp]) l hl)).mpr ⟨l, hl, hjc⟩⟩

/-- C9: the annotated fusion's kind is `PTD` rather than `fusion` exactly
when the two picked transcripts' genes coincide and both sides are
exon-bound, where a side is exon-bound exactly when the +1000
junction-edge term (junction-side code `=`) was contributed by some
candidate. -/
theorem is_ptd_exactly (ms1 ms2 : List (String × Option (List ExonMatch)))
    (txtLen : String → Int) (txtGene : String → String)
    (hwf1 : WfMatches ms1) (hwf2 : WfMatches ms2) :
    ((annotate_fusion txtGene (fusion_pick_best ms1 txtLen 'L')
        (fusion_pick_best ms2 txtLen 'R')).rna_event = "PTD" ↔
      (txtGene (fusion_pick_best ms1 txtLen 'L').1 =
          txtGene (fusion_pick_best ms2 txtLen 'R').1 ∧
        (fusion_pick_best ms1 txtLen 'L').2 = true ∧
        (fusion_pick_best ms2 txtLen 'R').2 = true)) ∧
    ((annotate_fusion txtGene (fusion_pick_best ms1 txtLen 'L')
        (fusion_pick_best ms2 txtLen 'R')).rna_event = "PTD" ∨
      (annotate_fusion txtGene (fusion_pick_best ms1 txtLen 'L')
        (fusion_pick_best ms2 txtLen 'R')).rna_event = "fusion") ∧
    ((fusion_pick_best ms1 txtLen 'L').2 = true ↔
      ∃ p ∈ ms1, ∃ l, p.2 = some l ∧ junctionChar 'L' l = '=') ∧
    ((fusion_pick_best ms2 txtLen 'R').2 = true ↔
      ∃ p ∈ ms2, ∃ l, p.2 = some l ∧ junctionChar 'R' l = '=') := by
  refine ⟨?_, ?_, fusion_pick_best_exon_bound ms1 txtLen 'L' hwf1,
    fusion_pick_best_exon_bound ms2 txtLen 'R' hwf2⟩
  · unfold annotate_fusion is_ptd
    cases hcond : (txtGene (fusion_pick_best ms1 txtLen 'L').1 ==
        txtGene (fusion_pick_best ms2 txtLen 'R').1 &&
        (fusion_pick_best ms1 txtLen 'L').2 && (fusion_pick_best ms2 txtLen 'R').2) with
    | true =>
      rw [if_pos (show (true = true) from rfl)]
      simp only [Bool.and_eq_true, beq_iff_eq] at hcond
      exact iff_of_true rfl ⟨hcond.1.1, hcond.1.2, hcond.2⟩
    | false =>
      rw [if_neg (show ¬ (false = true) from by decide)]
      refine iff_of_false (by simp) ?_
      rintro ⟨hg, hb1, hb2⟩
      rw [hg, hb1, hb2] at hcond
      simp at hcond
  · unfold annotate_fusion is_ptd
    cases hcond : (txtGene (fusion_pick_best ms1 txtLen 'L').1 ==
        txtGene (fusion_pick_best ms2 txtLen 'R').1 &&
        (fusion_pick_best ms1 txtLen 'L').2 && (fusion_pick_best ms2 txtLen 'R').2) with
    | true =>
      rw [if_pos (show (true = true) from rfl)]
      exact Or.inl rfl
    | false =>
      rw [if_neg (show ¬ (false = true) from by decide)]
      exact Or.inr rfl

/-- witness for `is_full_match_iff`: a 3-block mapping with codes
`>=`, `==`, `=<` over consecutive exons 0,1,2 is a full match. -/
theorem is_full_match_iff_witness :
    is_full_match [some [(0, ('>', '='))], some [(1, ('=', '='))], some [(2, ('=', '<'))]]
      = true := by
  have h := is_full_match_iff
    [some [(0, ('>', '='))], some [(1, ('=', '='))], some [(2, ('=', '<'))]] (by decide)
  apply h.1.mpr
  right
  refine ⟨[(0, ('>', '=')), (1, ('=', '=')), (2, ('=', '<'))], by decide, by decide,
    by decide, by decide, by decide, Or.inl ?_⟩
  simp [List.chain'_cons]

/-- witness for `detect_itd_update_cases` on the regex branch. -/
theorem detect_itd_update_cases_witness :
    detect_itd (Adjacency.mk "ins" (200, 300) (4, 9) "AAA") '+' "GGAAAXXAAATT" 3 10 0 [] =
      Adjacency.mk "ITD" (200, 300) (5, 8) "AAA" :=
  (detect_itd_update_cases (Adjacency.mk "ins" (200, 300) (4, 9) "AAA") '+' "GGAAAXXAAATT"
      3 10 0 []).1 ((3, 5), (8, 10)) (by decide)

/-- witness for `is_ptd_exactly`: a same-gene junction with exact
junction-edge codes on both sides is reclassified `PTD`. -/
theorem is_ptd_exactly_witness :
    (annotate_fusion (fun _ => "G")
        (fusion_pick_best [("tA", some [(3, ('=', '='))])] (fun _ => 100) 'L')
        (fusion_pick_best [("tB", some [(5, ('=', '='))])] (fun _ => 100) 'R')).rna_event
      = "PTD" := by
  have hwfA : WfMatches [("tA", (some [(3, ('=', '='))] : Option (List ExonMatch)))] := by
    intro p hp l hl
    rw [List.mem_singleton] at hp
    subst hp
    injection hl with hl2
    subst hl2
    refine ⟨by decide, ?_⟩
    intro em hem
    rw [List.mem_singleton] at hem
    subst hem
    exact ⟨Or.inl rfl, Or.inl rfl⟩
  have hwfB : WfMatches [("tB", (some [(5, ('=', '='))] : Option (List ExonMatch)))] := by
    intro p hp l hl
    rw [List.mem_singleton] at hp
    subst hp
    injection hl with hl2
    subst hl2
    refine ⟨by decide, ?_⟩
    intro em hem
    rw [List.mem_singleton] at hem
    subst hem
    exact ⟨Or.inl rfl, Or.inl rfl⟩
  have h := is_ptd_exactly [("tA", some [(3, ('=', '='))])] [("tB", some [(5, ('=', '='))])]
    (fun _ => 100) (fun _ => "G") hwfA hwfB
  refine h.1.mpr ⟨rfl, ?_, ?_⟩
  · exact h.2.2.1.mpr ⟨("tA", some [(3, ('=', '='))]), List.mem_singleton.mpr rfl,
      [(3, ('=', '='))], rfl, by decide⟩
  · exact h.2.2.2.mpr ⟨("tB", some [(5, ('=', '='))]), List.mem_singleton.mpr rfl,
      [(5, ('=', '='))], rfl, by decide⟩

end Pavfinder
